import Mathlib

/-!
Verification of the Wiktionary audio extension against its specification.

The definitions below are shallow embeddings of the extension's JavaScript:
* `sanitizeFilename` embeds `sanitizeFilename` (background.js:37-45);
* `arrayBufferToBase64`, `chunkedJoin`, `encodeB64` embed
  `arrayBufferToBase64` (background.js:13-35) together with the platform
  `btoa` base64 encoder;
* `isAudioFile`, `listAudioFileTitles`, `resolveDirectUrls`,
  `fallbackActionApiDiscovery`, `wikiMain` embed the content script's
  discovery pipeline (content-script lines 238-320, 527-584), with the
  network responses supplied as explicit environment values;
* `handlePortMessage` embeds the offscreen document's
  `port.onMessage` transcode handler (offscreen.js:176-297), recording the
  messages it emits and the trace of engine (ffmpeg) operations it performs;
* `handleCompletion`, `fireTimeout`, `transcodeTimeoutMs` embed the
  coordinator side of `transcodeToWav` (background.js:96-155): the pending
  promise settles at most once, the timeout rejects it, and the
  `FFMPEG_TRANSCODE_COMPLETE` listener reconstructs the byte payload;
* `loadFFmpeg`, `processCalls` embed the memoized single-flight FFmpeg
  loader (offscreen.js:24-158), modelling the synchronous check-and-set
  prefix of each call under JavaScript run-to-completion scheduling;
* `downloadAllFiles` embeds the sequential batch loop of
  `downloadAllFiles` (content-script lines 470-524).

Strings are modelled as Lean `String`/`List Char`; byte buffers as
`List Nat` with explicit `% 256` where JavaScript coerces to uint8;
fallible operations as `Except`.
-/

/-- Whitespace class of the JavaScript regular expression `\s` and of
`String.prototype.trim` (ASCII whitespace, NBSP, Ogham space, the U+2000
range, line/paragraph separators, narrow NBSP, math space, ideographic
space, BOM). -/
def isSpaceChar (c : Char) : Bool :=
  c.toNat == 0x09 || c.toNat == 0x0a || c.toNat == 0x0b || c.toNat == 0x0c ||
  c.toNat == 0x0d || c.toNat == 0x20 || c.toNat == 0xa0 || c.toNat == 0x1680 ||
  (decide (0x2000 ≤ c.toNat) && decide (c.toNat ≤ 0x200a)) ||
  c.toNat == 0x2028 || c.toNat == 0x2029 || c.toNat == 0x202f ||
  c.toNat == 0x205f || c.toNat == 0x3000 || c.toNat == 0xfeff

/-- Characters replaced by `_` in `sanitizeFilename` (the regex character
class in background.js:39). -/
def illegalChars : List Char := ['<', '>', ':', '\"', '/', '\\', '|', '?', '*']

/-- Test for membership in the illegal-character class. -/
def illegalChar (c : Char) : Bool := illegalChars.contains c

/-- Embeds `.replace(/[<>:"\/\\|?*]/g, '_')`. -/
def replaceIllegal (l : List Char) : List Char :=
  l.map fun c => if illegalChar c then '_' else c

/-- Embeds `.replace(/\s+/g, ' ')`: each maximal run of whitespace becomes a
single space.  The boolean flag records whether the previous character was
part of a whitespace run. -/
def collapseWs : List Char → Bool → List Char
  | [], _ => []
  | c :: cs, prevSpace =>
    if isSpaceChar c then
      if prevSpace then collapseWs cs true else ' ' :: collapseWs cs true
    else c :: collapseWs cs false

/-- Embeds `.replace(/^\.+/, '')`. -/
def dropLeadingDots (l : List Char) : List Char := l.dropWhile fun c => c == '.'

/-- Embeds `.trim()`. -/
def trimWs (l : List Char) : List Char :=
  (l.dropWhile isSpaceChar).rdropWhile isSpaceChar

/-- Embeds `sanitizeFilename` (background.js:37-45): replace illegal
characters, collapse whitespace, strip leading dots, trim, truncate to 255
characters, in exactly this order. -/
def sanitizeFilename (l : List Char) : List Char :=
  (trimWs (dropLeadingDots (collapseWs (replaceIllegal l) false))).take 255

/-- Standard base64 alphabet used by the platform `btoa`. -/
def b64Alphabet : List Char :=
  "ABCDEFGHIJKLMNOPQRSTUVWXYZabcdefghijklmnopqrstuvwxyz0123456789+/".toList

/-- Digit lookup into the base64 alphabet. -/
def b64Char (n : Nat) : Char := b64Alphabet.getD n '='

/-- Base64 encoding of a sequence of code units (the semantics of `btoa` on
a latin1 string, written as the list of its code points). -/
def encodeB64 : List Nat → List Char
  | [] => []
  | [a] => [b64Char (a / 4), b64Char (a % 4 * 16), '=', '=']
  | [a, b] => [b64Char (a / 4), b64Char (a % 4 * 16 + b / 16), b64Char (b % 16 * 4), '=']
  | a :: b :: c :: rest =>
    b64Char (a / 4) :: b64Char (a % 4 * 16 + b / 16) ::
      b64Char (b % 16 * 4 + c / 64) :: b64Char (c % 64) :: encodeB64 rest

/-- Embeds `String.fromCharCode(...xs)`: each argument is coerced with
ToUint16 to a UTF-16 code unit.  On `Uint8Array` contents (all < 256) this
is the identity. -/
def fromCharCodeUnits (l : List Nat) : List Nat := l.map fun b => b % 65536

/-- Embeds the platform `btoa` on the call sites' inputs (binary strings
whose code units are all below 256; the DOMException branch for larger code
units is never reached by `arrayBufferToBase64`). -/
def btoa (codeUnits : List Nat) : List Char := encodeB64 codeUnits

/-- Embeds the chunked loop of `arrayBufferToBase64` (background.js:28-33):
`binary += String.fromCharCode(...bytes.subarray(i, i + 8192))` over the
whole buffer. -/
def chunkedJoin (l : List Nat) : List Nat :=
  if h : l = [] then [] else fromCharCodeUnits (l.take 8192) ++ chunkedJoin (l.drop 8192)
termination_by l.length
decreasing_by
  simp only [List.length_drop]
  exact Nat.sub_lt (List.length_pos.mpr h) (by decide)

/-- Embeds `arrayBufferToBase64` (background.js:13-35): buffers under 65536
bytes take the direct single-call path, larger ones the chunked path. -/
def arrayBufferToBase64 (bytes : List Nat) : List Char :=
  if bytes.length < 65536 then btoa (fromCharCodeUnits bytes)
  else btoa (chunkedJoin bytes)

/-- MIME allowlist of `isAudioFile` (content script lines 241-259). -/
def audioMimeTypes : List String :=
  ["audio/mpeg", "audio/mp3", "audio/ogg", "audio/wav", "audio/wave",
   "audio/webm", "audio/mp4", "audio/aac", "audio/x-aac", "audio/flac",
   "audio/x-flac", "audio/opus", "audio/3gpp", "audio/amr", "audio/x-ms-wma",
   "video/ogg", "video/webm"]

/-- Extension set of the fallback regex in `isAudioFile` (line 267). -/
def audioExtensions : List String :=
  ["ogg", "oga", "opus", "mp3", "wav", "wave", "webm", "m4a", "aac",
   "flac", "wma", "amr", "3gp", "3ga"]

/-- Embeds `toLowerCase()` on the ASCII strings the extension compares
(MIME types, extensions, URL tails); mapped characterwise so that it
reduces by kernel computation. -/
def toLowerString (s : String) : String := ⟨s.data.map Char.toLower⟩

/-- Suffix test on strings, computed on their character lists. -/
def endsWithString (s suffixPart : String) : Bool :=
  suffixPart.data.isSuffixOf s.data

/-- Splitting on a separator character (the semantics of
`"a/b".split("/")`), computed structurally. -/
def splitOnChar (sep : Char) : List Char → List (List Char)
  | [] => [[]]
  | c :: cs =>
    let r := splitOnChar sep cs
    if c == sep then [] :: r
    else
      match r with
      | [] => [[c]]
      | x :: xs => (c :: x) :: xs

/-- Embeds the regex test `/\.(ogg|...|3ga)$/i.test(filename)`. -/
def hasAudioExtension (filename : String) : Bool :=
  audioExtensions.any fun ext => endsWithString (toLowerString filename) ("." ++ ext)

/-- Embeds the extension half of `isAudioFile` (lines 266-270): a truthy
string filename is tested against the extension regex, anything else yields
false. -/
def extFallbackCheck : Option String → Bool
  | some f => if f.isEmpty then false else hasAudioExtension f
  | none => false

/-- Embeds `isAudioFile(filename, mimeType)` (content script lines 238-271):
a truthy MIME type found in the allowlist (after lowercasing) accepts
immediately; otherwise control falls through to the extension check. -/
def isAudioFile (filename : Option String) (mimeType : Option String) : Bool :=
  match mimeType with
  | some m =>
    if !m.isEmpty && audioMimeTypes.contains (toLowerString m) then true
    else extFallbackCheck filename
  | none => extFallbackCheck filename

/-- MIME acceptance alone, for stating the corrected filtering rule. -/
def mimeAllowed : Option String → Bool
  | some m => audioMimeTypes.contains (toLowerString m)
  | none => false

/-- Value of a hexadecimal digit character, if any. -/
def hexDigitVal (c : Char) : Option Nat :=
  if '0' ≤ c ∧ c ≤ '9' then some (c.toNat - '0'.toNat)
  else if 'a' ≤ c ∧ c ≤ 'f' then some (c.toNat - 'a'.toNat + 10)
  else if 'A' ≤ c ∧ c ≤ 'F' then some (c.toNat - 'A'.toNat + 10)
  else none

/-- Percent-escape decoding, modelling `decodeURIComponent` byte-wise: a
`%XX` escape becomes the character with code `XX`.  (Multi-byte UTF-8
escapes and the malformed-escape exception are outside the inputs the
claims evaluate.) -/
def percentDecode : List Char → List Char
  | [] => []
  | '%' :: a :: b :: rest =>
    (match hexDigitVal a, hexDigitVal b with
     | some ha, some hb => Char.ofNat (16 * ha + hb) :: percentDecode rest
     | _, _ => '%' :: percentDecode (a :: b :: rest))
  | c :: rest => c :: percentDecode rest

/-- String wrapper for `percentDecode`. -/
def decodeURIComponentModel (s : String) : String := ⟨percentDecode s.data⟩

/-- One item of the REST media-list response (`j.items`). -/
structure MediaItem where
  title : String
  audioType : Option String
deriving DecidableEq

/-- Truthiness test `it.audio_type && it.audio_type !== "unknown"`. -/
def hasAudioTypeFlag (it : MediaItem) : Bool :=
  match it.audioType with
  | some t => !t.isEmpty && t != "unknown"
  | none => false

/-- Embeds the filter/map body of `listAudioFileTitles` (lines 278-285) on
an already-parsed item list. -/
def listAudioFileTitles (items : List MediaItem) : List String :=
  (items.filter fun it => hasAudioTypeFlag it || isAudioFile (some it.title) none).map
    fun it => it.title

/-- First `imageinfo` entry of an Action API page record. -/
structure ImageInfo where
  url : Option String
  mime : Option String
  extmetadata : Option (List (String × String))
deriving DecidableEq

/-- One page record of an Action API query response. -/
structure PageEntry where
  title : String
  imageinfo : Option ImageInfo
deriving DecidableEq

/-- Candidate produced by discovery (title, direct URL, decoded filename,
license metadata). -/
structure AudioCandidate where
  title : String
  url : String
  filename : String
  license : List (String × String)
deriving DecidableEq

/-- Embeds `decodeURIComponent(ii.url.split("/").pop() || "audio")`. -/
def candidateFilename (u : String) : String :=
  let seg : List Char := (splitOnChar '/' u.data).getLastD []
  decodeURIComponentModel (if seg.isEmpty then "audio" else ⟨seg⟩)

/-- Embeds the shared acceptance loop of `resolveDirectUrls` (lines 305-319)
and `fallbackActionApiDiscovery` (lines 542-555): keep a page entry only if
it has an imageinfo URL and `isAudioFile(url, mime)` holds. -/
def acceptImageinfoEntries (pages : List PageEntry) : List AudioCandidate :=
  pages.filterMap fun pg =>
    match pg.imageinfo with
    | some ii =>
      (match ii.url with
       | some u =>
         if isAudioFile (some u) ii.mime then
           some ⟨pg.title, u, candidateFilename u, ii.extmetadata.getD []⟩
         else none
       | none => none)
    | none => none

/-- Embeds `resolveDirectUrls(fileTitles)` (lines 288-320): empty title list
short-circuits to `[]` without a network request; otherwise the Action API
response (supplied as `response`; `Except.error` is a thrown fetch or parse
failure) is filtered by `acceptImageinfoEntries`. -/
def resolveDirectUrls (fileTitles : List String)
    (response : Except Unit (List PageEntry)) : Except Unit (List AudioCandidate) :=
  if fileTitles.isEmpty then Except.ok []
  else response.map acceptImageinfoEntries

/-- Embeds `fallbackActionApiDiscovery(pageTitle)` (lines 527-556): the
generator-style query's response filtered by the same acceptance loop. -/
def fallbackActionApiDiscovery (response : Except Unit (List PageEntry)) :
    Except Unit (List AudioCandidate) :=
  response.map acceptImageinfoEntries

/-- Outcome of the REST media-list fetch in `listAudioFileTitles`: a thrown
network error (propagates to the main catch), a non-ok HTTP status (returns
`[]`), or a parsed item list. -/
inductive ListFetchOutcome where
  | threw
  | httpNotOk
  | ok (items : List MediaItem)

/-- Network environment of the content script's main IIFE. -/
structure DiscoveryEnv where
  listFetch : ListFetchOutcome
  resolveFetch : Except Unit (List PageEntry)
  fallbackFetch : Except Unit (List PageEntry)

/-- Result of the main IIFE: the candidate list handed to `createUI`,
whether the fallback Action API query was issued, and whether the panel was
shown. -/
structure DiscoveryOutcome where
  candidates : List AudioCandidate
  fallbackIssued : Bool
  uiShown : Bool
deriving DecidableEq

/-- Continuation of the main IIFE (lines 567-580) after the List stage
produced `files`: resolve, then fall back only if `resolved` is empty. -/
def wikiMainAfterFiles (files : List String) (env : DiscoveryEnv) : DiscoveryOutcome :=
  match resolveDirectUrls files env.resolveFetch with
  | Except.error _ => ⟨[], false, false⟩
  | Except.ok resolved =>
    if resolved.isEmpty then
      match fallbackActionApiDiscovery env.fallbackFetch with
      | Except.error _ => ⟨[], true, false⟩
      | Except.ok fb => ⟨fb, true, !fb.isEmpty⟩
    else ⟨resolved, false, true⟩

/-- Embeds the content script's main IIFE (lines 560-584): empty title does
nothing; a thrown List-stage fetch is caught by the outer catch; a non-ok
HTTP status yields zero titles. -/
def wikiMain (title : String) (env : DiscoveryEnv) : DiscoveryOutcome :=
  if title.isEmpty then ⟨[], false, false⟩
  else
    match env.listFetch with
    | ListFetchOutcome.threw => ⟨[], false, false⟩
    | ListFetchOutcome.httpNotOk => wikiMainAfterFiles [] env
    | ListFetchOutcome.ok items => wikiMainAfterFiles (listAudioFileTitles items) env

/-- Candidates produced by the List+Resolve stages alone (empty on any
error path). -/
def listResolveCandidates (title : String) (env : DiscoveryEnv) : List AudioCandidate :=
  if title.isEmpty then []
  else
    match env.listFetch with
    | ListFetchOutcome.threw => []
    | ListFetchOutcome.httpNotOk =>
      (match resolveDirectUrls [] env.resolveFetch with
       | Except.ok r => r
       | Except.error _ => [])
    | ListFetchOutcome.ok items =>
      (match resolveDirectUrls (listAudioFileTitles items) env.resolveFetch with
       | Except.ok r => r
       | Except.error _ => [])

/-- Message arriving on the `ffmpeg` port (offscreen.js:181). -/
structure PortMsg where
  type : String
  srcUrl : Option String
  outBase : Option String
deriving DecidableEq

/-- Environment of one offscreen transcode job: the outcome of each awaited
operation.  Error strings stand for the formatted
`constructor.name: message` text the handler builds. -/
structure OffscreenEnv where
  fetchResult : Except String (List Nat)
  loadResult : Except String Unit
  writeResult : Except String Unit
  execResult : Except String Unit
  readResult : Except String (List Nat)

/-- Engine (ffmpeg) interactions performed by the handler, in order. -/
inductive EngineOp where
  | load
  | writeFile (name : String) (bytes : List Nat)
  | exec (args : List String)
  | readFile (name : String)
  | deleteFile (name : String)
deriving DecidableEq

/-- Completion message broadcast via `chrome.runtime.sendMessage`
(offscreen.js:262-267) and consumed by the background `messageListener`. -/
structure CompletionMsg where
  type : String
  ok : Bool
  filename : String
  audioBytes : Option (List Nat)
  error : Option String
deriving DecidableEq

/-- Messages the offscreen handler emits: replies on the job port and
broadcast completion messages. -/
inductive Emitted where
  | portReply (ok : Bool) (error : Option String)
  | broadcast (type : String) (ok : Bool) (filename : String) (audioBytes : List Nat)
deriving DecidableEq

/-- The fixed ffmpeg command line (offscreen.js:232-240). -/
def ffmpegArgs (inName outName : String) : List String :=
  ["-i", inName, "-vn", "-ac", "1", "-ar", "48000", "-sample_fmt", "s16", "-y", outName]

/-- Embeds the offscreen `port.onMessage` handler (offscreen.js:176-297).
Returns the emitted messages and the trace of engine operations.  Failures
reply on the port; only the success path broadcasts
`FFMPEG_TRANSCODE_COMPLETE` with `Array.from(out)` as payload.  The catch
block's best-effort `deleteFile` calls appear in the trace of every failure
path that entered the try block. -/
def handlePortMessage (env : OffscreenEnv) (msg : PortMsg) : List Emitted × List EngineOp :=
  if msg.type == "FFMPEG_TRANSCODE_TO_WAV" then
    match msg.srcUrl with
    | none => ([Emitted.portReply false (some "No audio URL provided")], [])
    | some _ =>
      match env.fetchResult with
      | Except.error e =>
        ([Emitted.portReply false (some ("Failed to fetch audio: " ++ e))], [])
      | Except.ok audioBytes =>
        if audioBytes.isEmpty then
          ([Emitted.portReply false (some "No audio data received after fetch")], [])
        else
          let inName := "in.bin"
          let outName := (msg.outBase.getD "audio") ++ ".wav"
          let cleanup := [EngineOp.deleteFile inName, EngineOp.deleteFile outName]
          match env.loadResult with
          | Except.error e =>
            ([Emitted.portReply false (some e)], EngineOp.load :: cleanup)
          | Except.ok _ =>
            match env.writeResult with
            | Except.error e =>
              ([Emitted.portReply false (some e)],
               EngineOp.load :: EngineOp.writeFile inName audioBytes :: cleanup)
            | Except.ok _ =>
              match env.execResult with
              | Except.error e =>
                ([Emitted.portReply false (some e)],
                 EngineOp.load :: EngineOp.writeFile inName audioBytes ::
                   EngineOp.exec (ffmpegArgs inName outName) :: cleanup)
              | Except.ok _ =>
                match env.readResult with
                | Except.error e =>
                  ([Emitted.portReply false (some e)],
                   EngineOp.load :: EngineOp.writeFile inName audioBytes ::
                     EngineOp.exec (ffmpegArgs inName outName) ::
                     EngineOp.readFile outName :: cleanup)
                | Except.ok out =>
                  ([Emitted.broadcast "FFMPEG_TRANSCODE_COMPLETE" true outName out],
                   EngineOp.load :: EngineOp.writeFile inName audioBytes ::
                     EngineOp.exec (ffmpegArgs inName outName) ::
                     EngineOp.readFile outName :: cleanup)
  else ([Emitted.portReply false (some "Unknown message type")], [])

/-- Success test for an `Except`. -/
def exceptOk {ε α : Type} : Except ε α → Bool
  | Except.ok _ => true
  | Except.error _ => false

/-- A job succeeds when every awaited stage of the handler succeeds and the
fetched payload is non-empty. -/
def jobSucceeds (env : OffscreenEnv) (msg : PortMsg) : Bool :=
  (msg.type == "FFMPEG_TRANSCODE_TO_WAV") && msg.srcUrl.isSome &&
  (match env.fetchResult with
   | Except.ok bytes => !bytes.isEmpty
   | Except.error _ => false) &&
  exceptOk env.loadResult && exceptOk env.writeResult &&
  exceptOk env.execResult && exceptOk env.readResult

/-- The source fetch threw, or it delivered a zero-length payload. -/
def fetchFailedOrEmpty (env : OffscreenEnv) : Bool :=
  match env.fetchResult with
  | Except.error _ => true
  | Except.ok bytes => bytes.isEmpty

/-- Recognizes a broadcast completion message. -/
def isCompleteBroadcast : Emitted → Bool
  | Emitted.broadcast t _ _ _ => t == "FFMPEG_TRANSCODE_COMPLETE"
  | Emitted.portReply _ _ => false

/-- Recognizes an error reply on the job port. -/
def isErrorPortReply : Emitted → Bool
  | Emitted.portReply ok _ => !ok
  | Emitted.broadcast _ _ _ _ => false

/-- Broadcast messages among the emitted messages, as the coordinator's
`chrome.runtime.onMessage` listener receives them. -/
def emittedBroadcasts (l : List Emitted) : List CompletionMsg :=
  l.filterMap fun e =>
    match e with
    | Emitted.broadcast t ok fn bytes => some ⟨t, ok, fn, some bytes, none⟩
    | Emitted.portReply _ _ => none

/-- Successful payload as the coordinator resolves it (filename plus the
reconstructed bytes). -/
structure WavResult where
  filename : String
  bytes : List Nat
deriving DecidableEq

deriving instance DecidableEq for Except

/-- The pending `transcodeToWav` promise: it settles at most once. -/
structure PendingState where
  settled : Option (Except String WavResult)
deriving DecidableEq

/-- Unsettled promise. -/
def pendingInit : PendingState := ⟨none⟩

/-- Settling an already-settled promise has no effect (JavaScript promise
semantics for `resolve`/`reject` after settlement). -/
def settleWith (s : PendingState) (o : Except String WavResult) : PendingState :=
  match s.settled with
  | some _ => s
  | none => ⟨some o⟩

/-- Rejection message of the coordinator's transcode timeout
(background.js:103). -/
def timeoutErrorMsg : String :=
  "Transcoding timeout - FFmpeg load or conversion took too long"

/-- Embeds the `setTimeout` callback (background.js:101-105). -/
def fireTimeout (s : PendingState) : PendingState :=
  settleWith s (Except.error timeoutErrorMsg)

/-- Outcome the `messageListener` settles with for one completion message
(background.js:118-149): failure or invalid payload rejects; otherwise the
plain array is rebuilt into a `Uint8Array` (each element coerced mod 256). -/
def listenerOutcome (m : CompletionMsg) : Except String WavResult :=
  if !m.ok then Except.error (m.error.getD "Transcode failed")
  else
    match m.audioBytes with
    | none => Except.error "Invalid audio data received from conversion"
    | some bytes =>
      if bytes.isEmpty then Except.error "Invalid audio data received from conversion"
      else Except.ok ⟨m.filename, bytes.map fun b => b % 256⟩

/-- Embeds the coordinator's `messageListener` (background.js:110-150):
only messages of type `FFMPEG_TRANSCODE_COMPLETE` are handled; handling
removes the listener (second component) and settles the pending promise. -/
def handleCompletion (s : PendingState) (m : CompletionMsg) : PendingState × Bool :=
  if m.type == "FFMPEG_TRANSCODE_COMPLETE" then (settleWith s (listenerOutcome m), true)
  else (s, false)

/-- The coordinator's transcode deadline constant (background.js:106:
`}, 90000);`). -/
def transcodeTimeoutMs : Nat := 90000

/-- The deadline `transcodeToWav` applies, as a function of whether this is
the engine's first job after a load: the source uses the single constant
regardless. -/
def coordinatorDeadlineMs (firstJobAfterLoad : Bool) : Nat :=
  transcodeTimeoutMs

/-- Deadline as the specification's words claim it (for comparison): 120s
for the engine's first job after a load, 90s otherwise. -/
def specClaimDeadlineMs (firstJobAfterLoad : Bool) : Nat :=
  if firstJobAfterLoad then 120000 else 90000

/-- What a caller of `loadFFmpeg` ends up awaiting: an immediate return
(already loaded) or a load promise identified by its id. -/
inductive Ticket where
  | immediate
  | awaitP (id : Nat)
deriving DecidableEq

/-- State of the memoized loader (offscreen.js:24-26): the `loaded` flag,
the cached `loadPromise` (by id), plus instrumentation counting started
load attempts and a fresh-id counter. -/
structure EngineLoadState where
  loaded : Bool
  loadPromise : Option Nat
  attemptsStarted : Nat
  nextId : Nat
deriving DecidableEq

/-- The engine before any load: `loaded = false`, `loadPromise = null`. -/
def uninitState : EngineLoadState := ⟨false, none, 0, 0⟩

/-- Embeds the synchronous prefix of one `loadFFmpeg()` call
(offscreen.js:28-43): return immediately if loaded, await the cached
promise if a load is in flight, otherwise create and cache a new load
promise.  Under run-to-completion scheduling this prefix is atomic. -/
def loadFFmpeg (s : EngineLoadState) : EngineLoadState × Ticket :=
  if s.loaded then (s, Ticket.immediate)
  else
    match s.loadPromise with
    | some p => (s, Ticket.awaitP p)
    | none =>
      ({ s with loadPromise := some s.nextId,
                attemptsStarted := s.attemptsStarted + 1,
                nextId := s.nextId + 1 },
       Ticket.awaitP s.nextId)

/-- N concurrent `loadFFmpeg()` calls arriving before the load settles:
each runs its synchronous prefix in turn. -/
def processCalls : Nat → EngineLoadState → EngineLoadState × List Ticket
  | 0, s => (s, [])
  | n + 1, s =>
    let r1 := loadFFmpeg s
    let r2 := processCalls n r1.1
    (r2.1, r1.2 :: r2.2)

/-- Per-item outcome of `safeSendMessage` inside the batch loop: a response
(with its `ok` flag) or a thrown error caught by the inner catch. -/
inductive ItemOutcome where
  | responded (ok : Bool)
  | threw
deriving DecidableEq

/-- Embeds `response && response.ok` counting a success (content script
lines 490-494); a throw is caught and counted as a failure. -/
def outcomeSuccess : ItemOutcome → Bool
  | ItemOutcome.responded ok => ok
  | ItemOutcome.threw => false

/-- Aggregate report of the batch loop: the two counters plus the items
attempted, in order. -/
structure BatchReport where
  successCount : Nat
  failCount : Nat
  attempted : List String
deriving DecidableEq

/-- Embeds the sequential batch loop of `downloadAllFiles` (content script
lines 475-499): one awaited dispatch per item, in list order, each item's
outcome counted, no early abort. -/
def downloadAllFiles : List (String × ItemOutcome) → BatchReport
  | [] => ⟨0, 0, []⟩
  | (it, o) :: rest =>
    let r := downloadAllFiles rest
    if outcomeSuccess o then ⟨r.successCount + 1, r.failCount, it :: r.attempted⟩
    else ⟨r.successCount, r.failCount + 1, it :: r.attempted⟩

/-! Theorems. -/

/-- Chunking the buffer into 8192-byte pieces and concatenating their
code-unit strings reproduces the code units of the whole buffer. -/
theorem chunkedJoin_eq (l : List Nat) : chunkedJoin l = fromCharCodeUnits l := by
  suffices hgen : ∀ n (l : List Nat), l.length ≤ n → chunkedJoin l = fromCharCodeUnits l from
    hgen l.length l (Nat.le_refl _)
  intro n
  induction n with
  | zero =>
    intro l hl
    have hnil : l = [] := List.eq_nil_of_length_eq_zero (Nat.le_zero.mp hl)
    subst hnil
    rw [chunkedJoin]
    simp [fromCharCodeUnits]
  | succ k ih =>
    intro l hl
    rw [chunkedJoin]
    split
    · rename_i h
      simp [h, fromCharCodeUnits]
    · rename_i h
      rw [ih (l.drop 8192) ?_]
      · simp only [fromCharCodeUnits, ← List.map_append, List.take_append_drop]
      · have hpos := List.length_pos.mpr h
        simp only [List.length_drop]
        omega

/-- C10: the coordinator's base64 encoder produces the same string on both
internal paths — the chunked encoding (8192-byte chunks concatenated, then
encoded) equals the direct single-call encoding used below the 65536-byte
threshold — so `arrayBufferToBase64` depends only on the bytes. -/
theorem arrayBufferToBase64_paths_agree (bytes : List Nat) :
    btoa (chunkedJoin bytes) = btoa (fromCharCodeUnits bytes) ∧
    arrayBufferToBase64 bytes = btoa (fromCharCodeUnits bytes) := by
  have h := chunkedJoin_eq bytes
  refine ⟨by rw [h], ?_⟩
  rw [arrayBufferToBase64]
  split
  · rfl
  · rw [h]

/-- C2 counterexample: the coordinator's deadline for a first job after a
load is 90000 ms, not the 120000 ms the claim states. -/
theorem transcode_deadline_cex :
    coordinatorDeadlineMs true = 90000 ∧ specClaimDeadlineMs true = 120000 ∧
    coordinatorDeadlineMs true ≠ specClaimDeadlineMs true := by
  refine ⟨rfl, rfl, by decide⟩

/-- C2 (amended): a convert-mode dispatch whose completion broadcast never
arrives rejects after a flat 90-second deadline regardless of whether it is
the engine's first job after a load, and a completion broadcast arriving
after the deadline leaves the settled rejection unchanged (the listener
matches by message type, removes itself, and its resolve/reject of the
already-settled promise has no effect). -/
theorem transcode_deadline_flat_90s_late_broadcast_discarded :
    (∀ firstJob : Bool, coordinatorDeadlineMs firstJob = 90000) ∧
    (fireTimeout pendingInit).settled = some (Except.error timeoutErrorMsg) ∧
    (∀ m : CompletionMsg,
      ((handleCompletion (fireTimeout pendingInit) m).1).settled
        = some (Except.error timeoutErrorMsg)) := by
  refine ⟨fun _ => rfl, rfl, fun m => ?_⟩
  rw [handleCompletion]
  split
  · rfl
  · rfl

/-- Calls arriving while a load promise with id 0 is cached neither start a
new attempt nor change the state: every caller awaits promise 0. -/
theorem processCalls_waiting (m : Nat) (s : EngineLoadState)
    (h1 : s.loaded = false) (h2 : s.loadPromise = some 0) :
    processCalls m s = (s, List.replicate m (Ticket.awaitP 0)) := by
  induction m with
  | zero => rfl
  | succ k ih =>
    have hcall : loadFFmpeg s = (s, Ticket.awaitP 0) := by
      rw [loadFFmpeg, h1]
      simp [h2]
    simp [processCalls, hcall, ih, List.replicate]

/-- C6: N concurrent calls to the loader while the engine is uninitialized
start exactly one load attempt, and every caller awaits the same load
promise (id 0), hence observes that promise's single settlement. -/
theorem loadFFmpeg_single_flight (n : Nat) (h : 1 ≤ n) :
    (processCalls n uninitState).1.attemptsStarted = 1 ∧
    (processCalls n uninitState).2 = List.replicate n (Ticket.awaitP 0) := by
  obtain ⟨m, rfl⟩ : ∃ m, n = m + 1 := ⟨n - 1, (Nat.succ_pred_eq_of_pos h).symm⟩
  have hfirst : loadFFmpeg uninitState
      = (⟨false, some 0, 1, 1⟩, Ticket.awaitP 0) := rfl
  have hrest := processCalls_waiting m ⟨false, some 0, 1, 1⟩ rfl rfl
  simp [processCalls, hfirst, hrest, List.replicate]

/-- C6 witness at three concurrent callers. -/
theorem loadFFmpeg_single_flight_witness :
    1 ≤ 3 ∧ ((processCalls 3 uninitState).1.attemptsStarted = 1 ∧
      (processCalls 3 uninitState).2 = List.replicate 3 (Ticket.awaitP 0)) :=
  ⟨by decide, loadFFmpeg_single_flight 3 (by decide)⟩

/-- C7: the batch loop attempts every item, in order, with no early abort,
and reports exactly the failures among them: `failCount` counts the failed
items, `successCount` the rest, and the two sum to the batch size. -/
theorem downloadAllFiles_report (items : List (String × ItemOutcome)) :
    (downloadAllFiles items).attempted = items.map Prod.fst ∧
    (downloadAllFiles items).failCount
      = items.countP (fun p => !outcomeSuccess p.2) ∧
    (downloadAllFiles items).successCount
      = items.countP (fun p => outcomeSuccess p.2) ∧
    (downloadAllFiles items).successCount + (downloadAllFiles items).failCount
      = items.length := by
  induction items with
  | nil => exact ⟨rfl, rfl, rfl, rfl⟩
  | cons hd tl ih =>
    obtain ⟨it, o⟩ := hd
    obtain ⟨ih1, ih2, ih3, ih4⟩ := ih
    by_cases ho : outcomeSuccess o = true
    · refine ⟨?_, ?_, ?_, ?_⟩ <;>
        simp [downloadAllFiles, ho, List.countP_cons, ih1, ih2, ih3] <;> omega
    · have ho' : outcomeSuccess o = false := by
        cases hv : outcomeSuccess o
        · rfl
        · exact absurd hv ho
      refine ⟨?_, ?_, ?_, ?_⟩ <;>
        simp [downloadAllFiles, ho', List.countP_cons, ih1, ih2, ih3] <;> omega

/-- C3 counterexample: a resolved entry whose MIME type `text/html` is
present but not in the audio allowlist is nevertheless accepted because its
URL ends in `.ogg` — the extension fallback is not restricted to absent
MIME types, contradicting the claim's only-if condition. -/
theorem resolve_accepts_entry_with_nonaudio_mime_cex :
    resolveDirectUrls ["File:Test.ogg"]
        (Except.ok [⟨"File:Test.ogg",
          some ⟨some "https://upload.wikimedia.org/Test.ogg", some "text/html", none⟩⟩])
      = Except.ok
          [⟨"File:Test.ogg", "https://upload.wikimedia.org/Test.ogg", "Test.ogg", []⟩] ∧
    audioMimeTypes.contains "text/html" = false ∧
    (some "text/html" : Option String) ≠ none := by
  refine ⟨by decide, by decide, by decide⟩

/-- C3 (amended): the resolver accepts an entry exactly when its lowercased
MIME type is in the audio allowlist OR its filename matches the audio
extension set — the extension fallback applies both when the MIME type is
absent and when it is present but unrecognized; in particular an entry with
MIME `text/html` and no matching extension is rejected. -/
theorem isAudioFile_mime_or_extension :
    (∀ (fn mt : Option String),
      isAudioFile fn mt = (mimeAllowed mt || extFallbackCheck fn)) ∧
    isAudioFile (some "page.html") (some "text/html") = false := by
  refine ⟨?_, by decide⟩
  intro fn mt
  match mt with
  | none => simp [isAudioFile, mimeAllowed]
  | some m =>
    by_cases hm : m.isEmpty
    · have hme : m = "" := (String.isEmpty_iff m).mp hm
      subst hme
      rw [isAudioFile, mimeAllowed]
      rw [show audioMimeTypes.contains (toLowerString "") = false from by decide]
      simp
    · have hm' : m.isEmpty = false := by
        cases hv : m.isEmpty
        · rfl
        · exact absurd hv hm
      rw [isAudioFile, mimeAllowed, hm']
      by_cases hc : audioMimeTypes.contains (toLowerString m) = true
      · simp [hc]
      · have hc' : audioMimeTypes.contains (toLowerString m) = false := by
          cases hv : audioMimeTypes.contains (toLowerString m)
          · rfl
          · exact absurd hv hc
        simp [hc']

/-- C5: whenever the List and Resolve stages together produce at least one
candidate, the fallback generator-style Action API query is never issued. -/
theorem fallback_only_when_no_candidates (title : String) (env : DiscoveryEnv)
    (h : listResolveCandidates title env ≠ []) :
    (wikiMain title env).fallbackIssued = false := by
  rw [wikiMain]
  rw [listResolveCandidates] at h
  by_cases ht : title.isEmpty
  · rw [if_pos ht] at h
    exact absurd rfl h
  · rw [if_neg ht] at h
    rw [if_neg ht]
    cases hl : env.listFetch with
    | threw =>
      rw [hl] at h
    | httpNotOk =>
      rw [hl] at h
      have h' : ([] : List AudioCandidate) ≠ [] := h
      exact absurd rfl h'
    | ok items =>
      rw [hl] at h
      have h' : (match resolveDirectUrls (listAudioFileTitles items) env.resolveFetch with
        | Except.ok r => r
        | Except.error _ => ([] : List AudioCandidate)) ≠ [] := h
      show (wikiMainAfterFiles (listAudioFileTitles items) env).fallbackIssued = false
      rw [wikiMainAfterFiles]
      cases hr : resolveDirectUrls (listAudioFileTitles items) env.resolveFetch with
      | error e =>
        rw [hr] at h'
      | ok resolved =>
        rw [hr] at h'
        have h2 : resolved ≠ [] := h'
        have hne : resolved.isEmpty = false := by
          cases hv : resolved.isEmpty
          · rfl
          · exact absurd (List.isEmpty_iff.mp hv) h2
        simp only [hne]
        rfl

/-- Discovery environment for the C5 witness: the REST list stage finds one
audio title and the Action API resolves it to an `audio/ogg` file. -/
def c5wEnv : DiscoveryEnv :=
  ⟨ListFetchOutcome.ok [⟨"File:Water.ogg", some "generic"⟩],
   Except.ok [⟨"File:Water.ogg",
     some ⟨some "https://upload.wikimedia.org/Water.ogg", some "audio/ogg", none⟩⟩],
   Except.ok []⟩

/-- C5 witness: with one resolvable candidate, the fallback query is not
issued. -/
theorem fallback_only_when_no_candidates_witness :
    listResolveCandidates "water" c5wEnv ≠ [] ∧
    (wikiMain "water" c5wEnv).fallbackIssued = false :=
  ⟨by decide, fallback_only_when_no_candidates "water" c5wEnv (by decide)⟩

/-- Success test of an `Except` is equivalent to being an `ok`. -/
theorem exceptOk_iff {ε α : Type} (r : Except ε α) :
    exceptOk r = true ↔ ∃ v, r = Except.ok v := by
  cases r <;> simp [exceptOk]

/-- C1 (amended): the offscreen session emits the
`FFMPEG_TRANSCODE_COMPLETE` broadcast exactly when the job succeeds; every
failed job instead replies with an error message on the job port (which the
coordinator's completion listener does not receive), so no broadcast
completion message is produced for failures. -/
theorem transcode_result_broadcast_only_on_success (env : OffscreenEnv) (msg : PortMsg) :
    (handlePortMessage env msg).1.any isCompleteBroadcast = jobSucceeds env msg ∧
    (handlePortMessage env msg).1.any isErrorPortReply = !jobSucceeds env msg := by
  obtain ⟨fr, lr, wr, er, rr⟩ := env
  obtain ⟨mtype, msrc, mbase⟩ := msg
  by_cases ht : (mtype == "FFMPEG_TRANSCODE_TO_WAV") = true
  · cases msrc with
    | none =>
      simp [handlePortMessage, jobSucceeds, ht, isCompleteBroadcast, isErrorPortReply]
    | some u =>
      cases fr with
      | error e =>
        simp [handlePortMessage, jobSucceeds, ht, isCompleteBroadcast, isErrorPortReply]
      | ok bytes =>
        by_cases hb : bytes.isEmpty = true
        · simp [handlePortMessage, jobSucceeds, ht, hb, isCompleteBroadcast, isErrorPortReply]
        · have hb' : bytes.isEmpty = false := by
            cases hv : bytes.isEmpty
            · rfl
            · exact absurd hv hb
          cases lr <;> cases wr <;> cases er <;> cases rr <;>
            simp [handlePortMessage, jobSucceeds, ht, hb', isCompleteBroadcast,
              isErrorPortReply, exceptOk]
  · have ht' : (mtype == "FFMPEG_TRANSCODE_TO_WAV") = false := by
      cases hv : (mtype == "FFMPEG_TRANSCODE_TO_WAV")
      · rfl
      · exact absurd hv ht
    simp [handlePortMessage, jobSucceeds, ht', isCompleteBroadcast, isErrorPortReply]

/-- Environment of a job whose ffmpeg execution fails (C1 counterexample). -/
def c1env : OffscreenEnv :=
  ⟨Except.ok [1, 2, 3], Except.ok (), Except.ok (),
   Except.error "Error: ffmpeg exec failed", Except.ok []⟩

/-- Transcode request of the C1 counterexample. -/
def c1msg : PortMsg :=
  ⟨"FFMPEG_TRANSCODE_TO_WAV", some "https://upload.wikimedia.org/Test.ogg", some "Test"⟩

/-- C1 counterexample: a failed transcode job (ffmpeg execution error)
emits no broadcast completion message at all — its only output is an error
reply on the job port — refuting the claim that the `TranscodeResult` is
broadcast regardless of success or failure. -/
theorem transcode_failure_no_broadcast_cex :
    (handlePortMessage c1env c1msg).1
      = [Emitted.portReply false (some "Error: ffmpeg exec failed")] ∧
    (handlePortMessage c1env c1msg).1.any isCompleteBroadcast = false ∧
    jobSucceeds c1env c1msg = false :=
  ⟨rfl, rfl, rfl⟩

/-- C8: when the source fetch fails or delivers an empty payload, the job
terminates with an error reply on the port (the `FetchError` of the spec),
the engine-operation trace is empty — in particular `loadFFmpeg` is never
invoked and nothing is written to the engine's working storage — and no
completion broadcast is emitted. -/
theorem fetch_failure_no_engine_interaction (env : OffscreenEnv) (msg : PortMsg)
    (ht : msg.type = "FFMPEG_TRANSCODE_TO_WAV") (hs : msg.srcUrl.isSome = true)
    (hf : fetchFailedOrEmpty env = true) :
    (handlePortMessage env msg).2 = [] ∧
    (handlePortMessage env msg).1.any isErrorPortReply = true ∧
    (handlePortMessage env msg).1.any isCompleteBroadcast = false := by
  obtain ⟨u, hu⟩ := Option.isSome_iff_exists.mp hs
  rw [fetchFailedOrEmpty] at hf
  cases hfr : env.fetchResult with
  | error e =>
    simp [handlePortMessage, ht, hu, hfr, isErrorPortReply, isCompleteBroadcast]
  | ok bytes =>
    rw [hfr] at hf
    have hf' : bytes.isEmpty = true := hf
    have hb : bytes = [] := List.isEmpty_iff.mp hf'
    subst hb
    simp [handlePortMessage, ht, hu, hfr, isErrorPortReply, isCompleteBroadcast]

/-- Environment of a job whose source fetch fails (C8 witness). -/
def c8env : OffscreenEnv :=
  ⟨Except.error "Fetch failed: 404 Not Found", Except.ok (), Except.ok (),
   Except.ok (), Except.ok []⟩

/-- Transcode request of the C8 witness. -/
def c8msg : PortMsg :=
  ⟨"FFMPEG_TRANSCODE_TO_WAV", some "https://upload.wikimedia.org/x.ogg", some "x"⟩

/-- C8 witness: a concrete 404 fetch produces an error reply, an empty
engine trace and no broadcast. -/
theorem fetch_failure_no_engine_interaction_witness :
    (c8msg.type = "FFMPEG_TRANSCODE_TO_WAV" ∧ c8msg.srcUrl.isSome = true ∧
      fetchFailedOrEmpty c8env = true) ∧
    ((handlePortMessage c8env c8msg).2 = [] ∧
      (handlePortMessage c8env c8msg).1.any isErrorPortReply = true ∧
      (handlePortMessage c8env c8msg).1.any isCompleteBroadcast = false) :=
  ⟨⟨rfl, rfl, rfl⟩, fetch_failure_no_engine_interaction c8env c8msg rfl rfl rfl⟩

/-- C9: for every successful transcode, the byte sequence the coordinator
reconstructs from the broadcast completion message (serialized by the
engine session as a plain array, rebuilt by the listener into a typed byte
buffer with per-element uint8 coercion) is byte-for-byte equal to the
output bytes the engine produced before transport. -/
theorem transcode_payload_roundtrip (env : OffscreenEnv) (msg : PortMsg) (out : List Nat)
    (hr : env.readResult = Except.ok out) (hj : jobSucceeds env msg = true)
    (hne : out ≠ []) (hlt : ∀ b ∈ out, b < 256) :
    ∃ m : CompletionMsg,
      emittedBroadcasts (handlePortMessage env msg).1 = [m] ∧
      m.audioBytes = some out ∧
      (handleCompletion pendingInit m).1.settled
        = some (Except.ok ⟨m.filename, out⟩) := by
  rw [jobSucceeds] at hj
  simp only [Bool.and_eq_true] at hj
  obtain ⟨⟨⟨⟨⟨⟨ht, hsrc⟩, hfetch⟩, hload⟩, hwrite⟩, hexec⟩, hread⟩ := hj
  obtain ⟨u, hu⟩ := Option.isSome_iff_exists.mp hsrc
  cases hfr : env.fetchResult with
  | error e =>
    rw [hfr] at hfetch
    simp at hfetch
  | ok bytes =>
    rw [hfr] at hfetch
    have hfetch' : (!bytes.isEmpty) = true := hfetch
    have hbe : bytes.isEmpty = false := by
      cases hv : bytes.isEmpty
      · rfl
      · rw [hv] at hfetch'
        exact absurd hfetch' (by decide)
    obtain ⟨lv, hlr⟩ := (exceptOk_iff env.loadResult).mp hload
    obtain ⟨wv, hwv⟩ := (exceptOk_iff env.writeResult).mp hwrite
    obtain ⟨ev, hev⟩ := (exceptOk_iff env.execResult).mp hexec
    have houtne : out.isEmpty = false := by
      cases hv : out.isEmpty
      · rfl
      · exact absurd (List.isEmpty_iff.mp hv) hne
    have hmap : out.map (fun b => b % 256) = out := by
      calc out.map (fun b => b % 256)
          = out.map id := List.map_congr_left fun b hb => Nat.mod_eq_of_lt (hlt b hb)
        _ = out := List.map_id out
    refine ⟨⟨"FFMPEG_TRANSCODE_COMPLETE", true,
      (msg.outBase.getD "audio") ++ ".wav", some out, none⟩, ?_, rfl, ?_⟩
    · simp [handlePortMessage, ht, hu, hfr, hbe, hlr, hwv, hev, hr, emittedBroadcasts]
    · rw [handleCompletion]
      simp [listenerOutcome, houtne, settleWith, pendingInit, hmap]

/-- Environment of a successful job producing the bytes `RIFF` (C9
witness). -/
def c9env : OffscreenEnv :=
  ⟨Except.ok [1, 2, 3], Except.ok (), Except.ok (), Except.ok (),
   Except.ok [82, 73, 70, 70]⟩

/-- Transcode request of the C9 witness. -/
def c9msg : PortMsg :=
  ⟨"FFMPEG_TRANSCODE_TO_WAV", some "https://upload.wikimedia.org/a.ogg", some "a"⟩

/-- C9 witness: the four engine output bytes survive the array round trip
exactly. -/
theorem transcode_payload_roundtrip_witness :
    (c9env.readResult = Except.ok [82, 73, 70, 70] ∧ jobSucceeds c9env c9msg = true ∧
      ([82, 73, 70, 70] : List Nat) ≠ [] ∧
      ∀ b ∈ ([82, 73, 70, 70] : List Nat), b < 256) ∧
    (∃ m : CompletionMsg,
      emittedBroadcasts (handlePortMessage c9env c9msg).1 = [m] ∧
      m.audioBytes = some [82, 73, 70, 70] ∧
      (handleCompletion pendingInit m).1.settled
        = some (Except.ok ⟨m.filename, [82, 73, 70, 70]⟩)) :=
  ⟨⟨rfl, rfl, by decide, by decide⟩,
   transcode_payload_roundtrip c9env c9msg [82, 73, 70, 70] rfl rfl (by decide) (by decide)⟩

/-- Characters surviving `replaceIllegal` are never in the illegal class. -/
theorem mem_replaceIllegal (l : List Char) (c : Char) (hc : c ∈ replaceIllegal l) :
    illegalChar c = false := by
  rw [replaceIllegal] at hc
  obtain ⟨a, -, rfl⟩ := List.mem_map.mp hc
  by_cases hi : illegalChar a = true
  · simp only [hi, if_true]
    decide
  · have hif : illegalChar a = false := by
      cases hv : illegalChar a
      · rfl
      · exact absurd hv hi
    simp [hif]

/-- Characters of the collapsed string are the space character or
non-whitespace characters of the input. -/
theorem mem_collapseWs (l : List Char) (b : Bool) (c : Char) (hc : c ∈ collapseWs l b) :
    c = ' ' ∨ (c ∈ l ∧ isSpaceChar c = false) := by
  induction l generalizing b with
  | nil => simp [collapseWs] at hc
  | cons hd tl ih =>
    by_cases hsp : isSpaceChar hd = true
    · cases b with
      | true =>
        have heq : collapseWs (hd :: tl) true = collapseWs tl true := by
          simp [collapseWs, hsp]
        rw [heq] at hc
        rcases ih true hc with h | ⟨hmem, hns⟩
        · exact Or.inl h
        · exact Or.inr ⟨List.mem_cons_of_mem hd hmem, hns⟩
      | false =>
        have heq : collapseWs (hd :: tl) false = ' ' :: collapseWs tl true := by
          simp [collapseWs, hsp]
        rw [heq] at hc
        rcases List.mem_cons.mp hc with h | h
        · exact Or.inl h
        · rcases ih true h with h2 | ⟨hmem, hns⟩
          · exact Or.inl h2
          · exact Or.inr ⟨List.mem_cons_of_mem hd hmem, hns⟩
    · have hspf : isSpaceChar hd = false := by
        cases hv : isSpaceChar hd
        · rfl
        · exact absurd hv hsp
      have heq : collapseWs (hd :: tl) b = hd :: collapseWs tl false := by
        simp [collapseWs, hspf]
      rw [heq] at hc
      rcases List.mem_cons.mp hc with h | h
      · rw [h]
        exact Or.inr ⟨List.mem_cons_self hd tl, hspf⟩
      · rcases ih false h with h2 | ⟨hmem, hns⟩
        · exact Or.inl h2
        · exact Or.inr ⟨List.mem_cons_of_mem hd hmem, hns⟩

/-- The collapsed string never contains two adjacent whitespace characters,
and when the flag says a run is in progress it cannot start with one. -/
theorem collapseWs_chain (l : List Char) (b : Bool) :
    List.Chain' (fun a c => isSpaceChar a = false ∨ isSpaceChar c = false)
      (collapseWs l b) ∧
    (b = true → ∀ c cs, collapseWs l b = c :: cs → isSpaceChar c = false) := by
  induction l generalizing b with
  | nil =>
    refine ⟨List.chain'_nil, ?_⟩
    intro _ c cs h
    simp [collapseWs] at h
  | cons hd tl ih =>
    by_cases hsp : isSpaceChar hd = true
    · cases b with
      | true =>
        have heq : collapseWs (hd :: tl) true = collapseWs tl true := by
          simp [collapseWs, hsp]
        refine ⟨?_, ?_⟩
        · rw [heq]
          exact (ih true).1
        · intro _ c cs h
          rw [heq] at h
          exact (ih true).2 rfl c cs h
      | false =>
        have heq : collapseWs (hd :: tl) false = ' ' :: collapseWs tl true := by
          simp [collapseWs, hsp]
        refine ⟨?_, ?_⟩
        · rw [heq, List.chain'_cons']
          refine ⟨?_, (ih true).1⟩
          intro y hy
          cases hcol : collapseWs tl true with
          | nil =>
            rw [hcol] at hy
            simp at hy
          | cons c2 cs2 =>
            rw [hcol] at hy
            simp at hy
            subst hy
            exact Or.inr ((ih true).2 rfl c2 cs2 hcol)
        · intro hb
          exact absurd hb (by decide)
    · have hspf : isSpaceChar hd = false := by
        cases hv : isSpaceChar hd
        · rfl
        · exact absurd hv hsp
      have heq : collapseWs (hd :: tl) b = hd :: collapseWs tl false := by
        simp [collapseWs, hspf]
      refine ⟨?_, ?_⟩
      · rw [heq, List.chain'_cons']
        exact ⟨fun y _ => Or.inl hspf, (ih false).1⟩
      · intro _ c cs h
        rw [heq] at h
        injection h with h1 _
        rw [← h1]
        exact hspf

/-- Every character of the sanitized result comes from the collapsed
string. -/
theorem mem_sanitizeFilename (l : List Char) (c : Char) (hc : c ∈ sanitizeFilename l) :
    c ∈ collapseWs (replaceIllegal l) false := by
  rw [sanitizeFilename] at hc
  have h1 : c ∈ trimWs (dropLeadingDots (collapseWs (replaceIllegal l) false)) :=
    List.take_subset 255 _ hc
  rw [trimWs] at h1
  have hpre :=
    List.rdropWhile_prefix isSpaceChar
      ((dropLeadingDots (collapseWs (replaceIllegal l) false)).dropWhile isSpaceChar)
  have h2 := hpre.subset h1
  have h3 := List.dropWhile_subset isSpaceChar h2
  rw [dropLeadingDots] at h3
  exact List.dropWhile_subset _ h3

/-- The sanitized result inherits the no-adjacent-whitespace property
through the suffix (dot stripping, left trim), prefix (right trim) and
prefix (truncation) steps. -/
theorem sanitizeFilename_chain (l : List Char) :
    List.Chain' (fun a c => isSpaceChar a = false ∨ isSpaceChar c = false)
      (sanitizeFilename l) := by
  have h0 := (collapseWs_chain (replaceIllegal l) false).1
  have h1 := List.Chain'.suffix h0 (List.dropWhile_suffix fun c => c == '.')
  have h2 := List.Chain'.suffix h1 (List.dropWhile_suffix isSpaceChar)
  have h3 := List.Chain'.prefix h2 (List.rdropWhile_prefix isSpaceChar _)
  exact List.Chain'.take h3 255

/-- C4 (amended): `sanitizeFilename` is a pure function whose result
contains no filesystem-illegal characters, contains only the plain space
character as whitespace with no two adjacent whitespace characters, and is
at most 255 characters long.  (The claim's remaining parts — no leading
dots, and idempotence — fail: see the counterexample.) -/
theorem sanitizeFilename_sanitizes (l : List Char) :
    (sanitizeFilename l).all (fun c => !illegalChar c) = true ∧
    (sanitizeFilename l).all (fun c => !isSpaceChar c || c == ' ') = true ∧
    List.Chain' (fun a c => isSpaceChar a = false ∨ isSpaceChar c = false)
      (sanitizeFilename l) ∧
    (sanitizeFilename l).length ≤ 255 := by
  refine ⟨?_, ?_, sanitizeFilename_chain l, ?_⟩
  · rw [List.all_eq_true]
    intro c hc
    have hm := mem_sanitizeFilename l c hc
    rcases mem_collapseWs (replaceIllegal l) false c hm with h | ⟨hmem, -⟩
    · subst h
      decide
    · have hil := mem_replaceIllegal l c hmem
      simp [hil]
  · rw [List.all_eq_true]
    intro c hc
    have hm := mem_sanitizeFilename l c hc
    rcases mem_collapseWs (replaceIllegal l) false c hm with h | ⟨-, hns⟩
    · subst h
      decide
    · simp [hns]
  · rw [sanitizeFilename]
    exact List.length_take_le 255 _

/-- C4 counterexample: on the input `" .a"` the leading dot survives
(whitespace shields it from the dot-stripping step, which runs before
trimming), so the result has a leading dot and a second application changes
it — `sanitizeFilename` is not idempotent. -/
theorem sanitizeFilename_not_idempotent_cex :
    sanitizeFilename [' ', '.', 'a'] = ['.', 'a'] ∧
    sanitizeFilename (sanitizeFilename [' ', '.', 'a']) = ['a'] ∧
    sanitizeFilename (sanitizeFilename [' ', '.', 'a']) ≠ sanitizeFilename [' ', '.', 'a'] := by
  refine ⟨by decide, by decide, by decide⟩
